import Mathlib

/-
Verification of the stay-document reconciliation engine (src/src/data_processing.py)
against its natural-language specification.

Shallow embedding conventions:
- Timestamps are modeled as integers at day granularity. The document-side dates
  are truncated to calendar dates by the acquisition layer (database.py applies
  dt.date), so pandas Timedelta arithmetic on them is exact day arithmetic, and
  pd.Timedelta(days=k) is the integer k.
- A pandas column that may hold NaN or NaT is modeled as Option; every pandas
  comparison involving a missing value yields False, which the Option helpers
  below reproduce.
- Column absence (an optional column missing from the input table, a table-wide
  property in pandas) is modeled by the Flags structure.
- Python string operations are modeled on List Char. The functions upper, lower
  and the NFD accent strip cover ASCII plus the precomposed Latin accented
  letters that occur in the French labels this program processes; other
  characters pass through unchanged.
- pandas sort_values is an arbitrary (not stability-guaranteed) sort by the
  listed keys; it is embedded as an insertion sort by the same lexicographic
  key order. Theorems about the selected element are phrased so that they hold
  for every sorted permutation.
-/

/-! ## Generic list helpers -/

/-- First non-missing value of a column slice, the per-column semantics of the
pandas GroupBy.first aggregation (which skips null entries). -/
def firstSome {α : Type} : List (Option α) → Option α
  | [] => none
  | some a :: _ => some a
  | none :: t => firstSome t

/-- Structural worker of dedupFirst; the fuel argument only serves
termination and never runs out when it starts at the list length. -/
def dedupFirstF {α : Type} [BEq α] : Nat → List α → List α
  | _, [] => []
  | 0, l => l
  | n + 1, a :: t => a :: dedupFirstF n (t.filter (fun x => !(x == a)))

/-- Distinct values of a list, keeping the first occurrence of each value. -/
def dedupFirst {α : Type} [BEq α] (l : List α) : List α :=
  dedupFirstF l.length l

theorem mem_dedupFirstF {α : Type} [BEq α] [LawfulBEq α] (n : Nat) :
    ∀ (l : List α) (a : α), a ∈ l → l.length ≤ n → a ∈ dedupFirstF n l := by
  induction n with
  | zero =>
    intro l a h hlen
    cases l with
    | nil => cases h
    | cons b t => simp at hlen
  | succ n ih =>
    intro l a h hlen
    cases l with
    | nil => cases h
    | cons b t =>
      rcases List.mem_cons.mp h with h1 | h2
      · exact h1 ▸ List.mem_cons_self _ _
      · by_cases hab : a = b
        · exact hab ▸ List.mem_cons_self _ _
        · refine List.mem_cons_of_mem _ (ih _ a (List.mem_filter.mpr ⟨h2, by simp [hab]⟩) ?_)
          have := List.length_filter_le (fun x => !(x == b)) t
          simp only [List.length_cons] at hlen
          omega

theorem mem_dedupFirst {α : Type} [BEq α] [LawfulBEq α] (l : List α) (a : α)
    (h : a ∈ l) : a ∈ dedupFirst l :=
  mem_dedupFirstF l.length l a h (Nat.le_refl _)

theorem dedupFirstF_eq_self {α : Type} [BEq α] [LawfulBEq α] (n : Nat) :
    ∀ l : List α, l.Nodup → l.length ≤ n → dedupFirstF n l = l := by
  induction n with
  | zero =>
    intro l h hlen
    cases l with
    | nil => rfl
    | cons a t => simp at hlen
  | succ n ih =>
    intro l h hlen
    cases l with
    | nil => rfl
    | cons a t =>
      have hmem : a ∉ t := (List.nodup_cons.mp h).1
      have hf : t.filter (fun x => !(x == a)) = t := by
        apply List.filter_eq_self.mpr
        intro x hx
        simp only [Bool.not_eq_true', beq_eq_false_iff_ne, ne_eq, decide_eq_true_eq]
        intro hxa
        exact hmem (hxa ▸ hx)
      simp only [dedupFirstF, hf]
      simp only [List.length_cons] at hlen
      rw [ih t (List.nodup_cons.mp h).2 (by omega)]

theorem dedupFirst_eq_self {α : Type} [BEq α] [LawfulBEq α] (l : List α)
    (h : l.Nodup) : dedupFirst l = l :=
  dedupFirstF_eq_self l.length l h (Nat.le_refl _)

/-! ## Key Normalizer (normalize_text and create_doc_key) -/

/-- Whitespace as stripped by the Python str.strip method (the ASCII fragment). -/
def isPySpace (c : Char) : Bool :=
  c.toNat == 32 || c.toNat == 9 || c.toNat == 10 || c.toNat == 13 ||
  c.toNat == 11 || c.toNat == 12

/-- Strip leading and trailing whitespace, the Python str.strip method. -/
def stripList (l : List Char) : List Char :=
  (((l.dropWhile isPySpace).reverse).dropWhile isPySpace).reverse

/-- Map a precomposed lowercase accented letter to its uppercase form; identity
elsewhere. Together with Char.toUpper this models the Python str.upper method
on the covered alphabet. -/
def accentUp (c : Char) : Char :=
  match c with
  | 'à' => 'À' | 'â' => 'Â' | 'ä' => 'Ä'
  | 'é' => 'É' | 'è' => 'È' | 'ê' => 'Ê' | 'ë' => 'Ë'
  | 'î' => 'Î' | 'ï' => 'Ï'
  | 'ô' => 'Ô' | 'ö' => 'Ö'
  | 'ù' => 'Ù' | 'û' => 'Û' | 'ü' => 'Ü'
  | 'ÿ' => 'Ÿ' | 'ç' => 'Ç'
  | c => c

/-- Map a precomposed uppercase accented letter to its lowercase form; identity
elsewhere. -/
def accentDown (c : Char) : Char :=
  match c with
  | 'À' => 'à' | 'Â' => 'â' | 'Ä' => 'ä'
  | 'É' => 'é' | 'È' => 'è' | 'Ê' => 'ê' | 'Ë' => 'ë'
  | 'Î' => 'î' | 'Ï' => 'ï'
  | 'Ô' => 'ô' | 'Ö' => 'ö'
  | 'Ù' => 'ù' | 'Û' => 'û' | 'Ü' => 'ü'
  | 'Ÿ' => 'ÿ' | 'Ç' => 'ç'
  | c => c

/-- The Python str.upper method on one character (covered alphabet). -/
def pyUpperChar (c : Char) : Char := accentUp c.toUpper

/-- The Python str.lower method on one character (covered alphabet). -/
def pyLowerChar (c : Char) : Char := accentDown c.toLower

/-- NFD decomposition followed by removal of combining marks (category Mn), on
one character: a precomposed accented letter becomes its base letter, a
standalone combining mark (U+0300 to U+036F) is removed, anything else is kept. -/
def nfdStripChar (c : Char) : Option Char :=
  if 0x300 ≤ c.toNat ∧ c.toNat ≤ 0x36F then none
  else some (match c with
    | 'à' | 'â' | 'ä' => 'a'
    | 'é' | 'è' | 'ê' | 'ë' => 'e'
    | 'î' | 'ï' => 'i'
    | 'ô' | 'ö' => 'o'
    | 'ù' | 'û' | 'ü' => 'u'
    | 'ÿ' => 'y' | 'ç' => 'c'
    | 'À' | 'Â' | 'Ä' => 'A'
    | 'É' | 'È' | 'Ê' | 'Ë' => 'E'
    | 'Î' | 'Ï' => 'I'
    | 'Ô' | 'Ö' => 'O'
    | 'Ù' | 'Û' | 'Ü' => 'U'
    | 'Ÿ' => 'Y' | 'Ç' => 'C'
    | c => c)

/-- Accent stripping of a string, as done by normalize_text via
unicodedata.normalize("NFD", text) and removal of the Mn category. -/
def nfdStripList (l : List Char) : List Char := l.filterMap nfdStripChar

/-- Embedding of data_processing.normalize_text: None on missing input,
otherwise uppercase, strip, then accent removal. -/
def normalize_text : Option String → Option String
  | none => none
  | some s => some (String.mk (nfdStripList (stripList (s.toList.map pyUpperChar))))

/-- Structural worker of removePat; the fuel argument only serves termination
and never runs out when it starts at the list length (the skip case drops at
least one character because the pattern is nonempty). -/
def removePatF (pat : List Char) : Nat → List Char → List Char
  | _, [] => []
  | 0, l => l
  | n + 1, c :: t =>
    if pat ≠ [] ∧ pat.isPrefixOf (c :: t) then
      removePatF pat n (List.drop pat.length (c :: t))
    else
      c :: removePatF pat n t

/-- Remove every non-overlapping occurrence of a pattern, scanning left to
right: the Python str.replace method with an empty replacement. -/
def removePat (pat : List Char) (l : List Char) : List Char :=
  removePatF pat l.length l

/-- The fixed boilerplate substrings removed by create_doc_key, in source
order. The entry written with a double backslash is the literal two-character
sequence backslash dot, exactly as in the Python source (str.replace is not a
regular-expression replace). -/
def patterns_to_remove : List String :=
  ["cr lettre de liaison", "lettre de liaison", "cr", "foch", "hdj", "cs",
   "\\.", "ll"]

/-- Embedding of data_processing.create_doc_key: empty string on missing input,
otherwise lowercase, strip, sequential removal of the boilerplate patterns,
strip again. -/
def create_doc_key : Option String → String
  | none => ""
  | some s =>
    String.mk (stripList (patterns_to_remove.foldl
      (fun acc p => removePat p.toList acc)
      (stripList (s.toList.map pyLowerChar))))

/-- The Key Normalizer of the spec: the document key built by create_doc_key,
then normalized by normalize_text, as the pipeline chains them. -/
def doc_key_norm_of (l : Option String) : Option String :=
  normalize_text (some (create_doc_key l))

/-! ## Data model -/

/-- One row of the Stay table (GAM). The identity columns are required by the
shape contract (their absence is a fatal structural failure), so they are not
Option-typed. -/
structure Sejour where
  pat_ipp : String
  sej_id : String
  sej_ent : Int
  sej_sor : Int
  sej_uf : String
deriving DecidableEq

/-- One row of the Document table (EASILY). -/
structure Document where
  doc_id : String
  pat_ipp : String
  doc_libelle : Option String
  doc_cre : Option Int
  doc_val : Option Int
  doc_venue : Option String
  doc_creamere : Option Int
  doc_modmere : Option Int
  date_diffusion : Option Int
  doc_spe : Option String
deriving DecidableEq

/-- Presence of the optional Document columns in the input table (a pandas
column either exists for the whole table or not at all). -/
structure Flags where
  hasVenueCol : Bool
  hasCreamereCol : Bool
  hasModmereCol : Bool
deriving DecidableEq

/-- Both mother-document columns present: the condition under which the source
computes the two mother-document criteria instead of defaulting them. -/
def mereCols (f : Flags) : Bool := f.hasCreamereCol && f.hasModmereCol

/-- One row of the specialty reference mapping, after its doc_key has been
normalized by normalize_text at load time. -/
structure MatriceRow where
  sej_uf : String
  doc_key_norm : Option String
  sej_spe : Option String
deriving DecidableEq

/-- Left-merge lookup of the specialty mapping on the pair of unit code and
normalized key. Taking the first matching row reproduces the keep-first
drop_duplicates of load_matrice_specialite followed by a left merge. -/
def lookupSpe (mat : List MatriceRow) (uf : String) (key : Option String) :
    Option String :=
  match mat.find? (fun mr => mr.sej_uf == uf && mr.doc_key_norm == key) with
  | some mr => mr.sej_spe
  | none => none

/-! ## Option-aware comparisons (pandas comparisons with NaT yield False) -/

/-- Comparison value greater-or-equal bound; False when the value is missing. -/
def geOpt (a : Option Int) (b : Int) : Bool :=
  match a with
  | some x => b ≤ x
  | none => false

/-- Comparison value less-or-equal bound; False when the value is missing. -/
def leOpt (a : Option Int) (b : Int) : Bool :=
  match a with
  | some x => x ≤ b
  | none => false

/-! ## Criteria Evaluator -/

/-- Criterion 1, sdt_docven: the document venue number equals the stay id.
False when the venue column is absent or the value missing. -/
def sdt_docven_fn (f : Flags) (s : Sejour) (venue : Option String) : Bool :=
  if f.hasVenueCol then
    match venue with
    | some v => s.sej_id == v
    | none => false
  else false

/-- Criterion 2, sdt_docval: validated on or after admission and on or after
discharge minus 3 days. -/
def sdt_docval_fn (s : Sejour) (doc_val : Option Int) : Bool :=
  geOpt doc_val s.sej_ent && geOpt doc_val (s.sej_sor - 3)

/-- Criterion 3, sdt_smere: mother record created or modified on or before
discharge; True when the mother creation date is missing, and True by default
when the mother columns are absent. -/
def sdt_smere_fn (f : Flags) (s : Sejour) (creamere modmere : Option Int) : Bool :=
  if mereCols f then
    creamere.isNone || leOpt creamere s.sej_sor || leOpt modmere s.sej_sor
  else true

/-- Criterion 4, sdt_doccre: document created on or after admission minus 5
days. -/
def sdt_doccre_fn (s : Sejour) (doc_cre : Option Int) : Bool :=
  geOpt doc_cre (s.sej_ent - 5)

/-- Criterion 5, sdt_doccref: document created during the stay (inclusive). -/
def sdt_doccref_fn (s : Sejour) (doc_cre : Option Int) : Bool :=
  geOpt doc_cre s.sej_ent && leOpt doc_cre s.sej_sor

/-- Criterion 6, sdt_emere: mother record created or modified on or after
admission minus 5 days; True when the mother creation date is missing, and
True by default when the mother columns are absent. -/
def sdt_emere_fn (f : Flags) (s : Sejour) (creamere modmere : Option Int) : Bool :=
  if mereCols f then
    creamere.isNone || geOpt creamere (s.sej_ent - 5) || geOpt modmere (s.sej_ent - 5)
  else true

/-- Composite eligibility, sdt_status: the integer sum of the three minimal
criteria must exceed 2, written exactly as the source arithmetic. -/
def sdt_status_fn (docval smere doccre : Bool) : Bool :=
  decide ((if docval then (1 : Nat) else 0) + (if smere then 1 else 0) +
    (if doccre then 1 else 0) > 2)

/-- Raw delay del_sorval: the day difference between validation and discharge,
computed only when the composite criterion holds (np.where); the subtraction
of a missing validation date stays missing. -/
def del_sorval_fn (status : Bool) (doc_val : Option Int) (sor : Int) : Option Int :=
  if status then
    match doc_val with
    | some v => some (v - sor)
    | none => none
  else none

/-- One merged candidate row of the stay-document join, with every derived
column the source adds before ranking. -/
structure Row where
  sej : Sejour
  doc : Option Document
  doc_val : Option Int
  doc_key_norm : Option String
  sej_spe : Option String
  has_spe : Bool
  sdt_docven : Bool
  sdt_docval : Bool
  sdt_smere : Bool
  sdt_doccre : Bool
  sdt_doccref : Bool
  sdt_emere : Bool
  sdt_status : Bool
  del_sorval : Option Int
deriving DecidableEq

/-- Build one candidate row: the body of merge_sejours_documents up to and
including the specialty join, for one stay and one optional joined document.
A missing matrice (load failure) sets the specialty column to None, as the
except branch of the source does. -/
def mkRow (f : Flags) (matOpt : Option (List MatriceRow)) (s : Sejour)
    (d : Option Document) : Row :=
  let doc_val := d.bind Document.doc_val
  let doc_cre := d.bind Document.doc_cre
  let venue := if f.hasVenueCol then d.bind Document.doc_venue else none
  let creamere := if mereCols f then d.bind Document.doc_creamere else none
  let modmere := if mereCols f then d.bind Document.doc_modmere else none
  let key := match d with
    | some doc => normalize_text (some (create_doc_key doc.doc_libelle))
    | none => none
  let spe := match matOpt with
    | some mat => lookupSpe mat s.sej_uf key
    | none => none
  let v2 := sdt_docval_fn s doc_val
  let v3 := sdt_smere_fn f s creamere modmere
  let v4 := sdt_doccre_fn s doc_cre
  let status := sdt_status_fn v2 v3 v4
  { sej := s
    doc := d
    doc_val := doc_val
    doc_key_norm := key
    sej_spe := spe
    has_spe := spe.isSome
    sdt_docven := sdt_docven_fn f s venue
    sdt_docval := v2
    sdt_smere := v3
    sdt_doccre := v4
    sdt_doccref := sdt_doccref_fn s doc_cre
    sdt_emere := sdt_emere_fn f s creamere modmere
    sdt_status := status
    del_sorval := del_sorval_fn status doc_val s.sej_sor }

/-! ## Sorting machinery (embedding of pandas sort_values) -/

/-- Insert one element into a list, before the first element it compares
less-or-equal to. -/
def insertLe {α : Type} (le : α → α → Bool) (a : α) : List α → List α
  | [] => [a]
  | b :: t => if le a b then a :: b :: t else b :: insertLe le a t

/-- Insertion sort by a Boolean comparison: the embedding of sort_values. -/
def sortLe {α : Type} (le : α → α → Bool) : List α → List α
  | [] => []
  | a :: t => insertLe le a (sortLe le t)

theorem perm_insertLe {α : Type} (le : α → α → Bool) (a : α) (l : List α) :
    List.Perm (insertLe le a l) (a :: l) := by
  induction l with
  | nil => exact List.Perm.refl _
  | cons b t ih =>
    unfold insertLe
    by_cases h : le a b
    · simp [h]
    · simp only [h, if_false]
      exact (ih.cons b).trans (List.Perm.swap a b t)

theorem perm_sortLe {α : Type} (le : α → α → Bool) (l : List α) :
    List.Perm (sortLe le l) l := by
  induction l with
  | nil => exact List.Perm.refl _
  | cons a t ih =>
    exact (perm_insertLe le a (sortLe le t)).trans (ih.cons a)

theorem mem_sortLe {α : Type} (le : α → α → Bool) (l : List α) (a : α) :
    a ∈ sortLe le l ↔ a ∈ l := (perm_sortLe le l).mem_iff

theorem pairwise_insertLe {α : Type} (le : α → α → Bool)
    (htrans : ∀ a b c, le a b = true → le b c = true → le a c = true)
    (htotal : ∀ a b, le a b = true ∨ le b a = true)
    (a : α) (l : List α) (h : l.Pairwise (fun x y => le x y = true)) :
    (insertLe le a l).Pairwise (fun x y => le x y = true) := by
  induction l with
  | nil => simp [insertLe]
  | cons b t ih =>
    rcases List.pairwise_cons.mp h with ⟨hb, ht⟩
    unfold insertLe
    by_cases hab : le a b
    · simp only [hab, if_true]
      apply List.pairwise_cons.mpr
      refine ⟨?_, h⟩
      intro x hx
      rcases List.mem_cons.mp hx with rfl | hxt
      · exact hab
      · exact htrans a b x hab (hb x hxt)
    · simp only [hab, if_false]
      apply List.pairwise_cons.mpr
      have hba : le b a = true := by
        rcases htotal a b with h1 | h1
        · exact absurd h1 hab
        · exact h1
      refine ⟨?_, ih ht⟩
      intro x hx
      rcases List.mem_cons.mp ((perm_insertLe le a t).mem_iff.mp hx) with rfl | h2
      · exact hba
      · exact hb x h2

theorem pairwise_sortLe {α : Type} (le : α → α → Bool)
    (htrans : ∀ a b c, le a b = true → le b c = true → le a c = true)
    (htotal : ∀ a b, le a b = true ∨ le b a = true)
    (l : List α) :
    (sortLe le l).Pairwise (fun x y => le x y = true) := by
  induction l with
  | nil => simp [sortLe]
  | cons a t ih => exact pairwise_insertLe le htrans htotal a (sortLe le t) ih

/-- The head of a sorted permutation is a minimum of the list. -/
theorem head_sortLe_min {α : Type} (le : α → α → Bool)
    (htrans : ∀ a b c, le a b = true → le b c = true → le a c = true)
    (htotal : ∀ a b, le a b = true ∨ le b a = true)
    (l : List α) (x : α) (xs : List α) (h : sortLe le l = x :: xs) :
    ∀ y ∈ l, le x y = true := by
  intro y hy
  have hmem : y ∈ x :: xs := h ▸ (mem_sortLe le l y).mpr hy
  rcases List.mem_cons.mp hmem with rfl | htail
  · rcases htotal y y with h1 | h1 <;> exact h1
  · have hp := pairwise_sortLe le htrans htotal l
    rw [h] at hp
    exact (List.pairwise_cons.mp hp).1 y htail

/-! ## Ranking keys -/

/-- Encode one Boolean sort key sorted descending (True first): an ascending
integer key. -/
def bK (b : Bool) : Nat := if b then 0 else 1

/-- Missing-last flag of the delay key (na_position equals last). -/
def dNa (o : Option Int) : Nat := if o.isSome then 0 else 1

/-- Value part of the delay key. -/
def dV (o : Option Int) : Int := o.getD 0

/-- Lexicographic Boolean less-or-equal on a triple. -/
def lex3 (a b : Nat × Nat × Int) : Bool :=
  a.1 < b.1 || (a.1 == b.1 && (a.2.1 < b.2.1 || (a.2.1 == b.2.1 && a.2.2 ≤ b.2.2)))

theorem lex3_trans (a b c : Nat × Nat × Int)
    (h1 : lex3 a b = true) (h2 : lex3 b c = true) : lex3 a c = true := by
  rcases a with ⟨a1, a2, a3⟩; rcases b with ⟨b1, b2, b3⟩; rcases c with ⟨c1, c2, c3⟩
  simp only [lex3, Bool.or_eq_true, Bool.and_eq_true, decide_eq_true_eq,
    beq_iff_eq] at h1 h2 ⊢
  omega

theorem lex3_total (a b : Nat × Nat × Int) :
    lex3 a b = true ∨ lex3 b a = true := by
  rcases a with ⟨a1, a2, a3⟩; rcases b with ⟨b1, b2, b3⟩
  simp only [lex3, Bool.or_eq_true, Bool.and_eq_true, decide_eq_true_eq,
    beq_iff_eq]
  omega

theorem lex3_antisymm (a b : Nat × Nat × Int)
    (h1 : lex3 a b = true) (h2 : lex3 b a = true) : a = b := by
  rcases a with ⟨a1, a2, a3⟩; rcases b with ⟨b1, b2, b3⟩
  simp only [lex3, Bool.or_eq_true, Bool.and_eq_true, decide_eq_true_eq,
    beq_iff_eq] at h1 h2
  simp only [Prod.mk.injEq]
  omega

/-- The multi-criteria sort key of the source (within one stay group): has_spe
descending, sdt_docven descending, sdt_emere descending, sdt_status descending,
sdt_doccref descending, del_sorval ascending with missing values last. The five
Boolean keys are packed as binary digits of one integer, which is exactly their
lexicographic order. -/
def key2 (r : Row) : Nat × Nat × Int :=
  (16 * bK r.has_spe + 8 * bK r.sdt_docven + 4 * bK r.sdt_emere +
     2 * bK r.sdt_status + bK r.sdt_doccref,
   dNa r.del_sorval, dV r.del_sorval)

/-- The comparison the selection sort of merge_sejours_documents uses inside
one stay group. -/
def le2 (a b : Row) : Bool := lex3 (key2 a) (key2 b)

/-- Modelled from the spec: the coarse first ranking pass of section 4.4
(absence of resolved specialty ascending, then raw delay ascending with
missing values last). The source contains a single sort pass; this definition
follows the words of the spec so the two-pass description can be compared
with the source behavior. -/
def key1 (r : Row) : Nat × Nat × Int :=
  (bK r.has_spe, dNa r.del_sorval, dV r.del_sorval)

/-- Modelled from the spec: the pass-one comparison. -/
def le1 (a b : Row) : Bool := lex3 (key1 a) (key1 b)

/-! ## Selection of the best row per stay -/

/-- One output row of merge_sejours_documents: the groupby-first aggregate of
the sorted candidate group of one stay, later mutated by the multi-stay
conflict step. Only the columns the downstream code reads are kept. -/
structure BestRow where
  sej_id : String
  sej_uf : String
  doc_id : Option String
  doc_val : Option Int
  doc_key_norm : Option String
  del_sorval : Option Int
  sej_spe : Option String
  doc_spe : Option String
  date_diffusion : Option Int
deriving DecidableEq

/-- The pandas GroupBy.first aggregate of one sorted stay group: per column,
the first non-null value in sort order (GroupBy.first skips nulls column by
column, it does not return the first row). -/
def groupFirst (i : String) (sorted : List Row) : BestRow :=
  { sej_id := i
    sej_uf := (firstSome (sorted.map (fun r => some r.sej.sej_uf))).getD ""
    doc_id := firstSome (sorted.map (fun r => r.doc.map Document.doc_id))
    doc_val := firstSome (sorted.map Row.doc_val)
    doc_key_norm := firstSome (sorted.map Row.doc_key_norm)
    del_sorval := firstSome (sorted.map Row.del_sorval)
    sej_spe := firstSome (sorted.map Row.sej_spe)
    doc_spe := firstSome (sorted.map (fun r => r.doc.bind Document.doc_spe))
    date_diffusion := firstSome (sorted.map (fun r => r.doc.bind Document.date_diffusion)) }

/-! ## Conflict Resolver (documents claimed by several stays) -/

/-- Sort key of the conflict step: del_sorval ascending, missing last. -/
def leDel (a b : BestRow) : Bool :=
  lex3 (0, dNa a.del_sorval, dV a.del_sorval) (0, dNa b.del_sorval, dV b.del_sorval)

/-- Resolve one contested document: sort its claimant rows by raw delay, keep
the closest stay, null the raw delay of every other claimant row. -/
def resolveDoc (d : String) (acc : List BestRow) : List BestRow :=
  match (sortLe leDel (acc.filter (fun r => r.doc_id == some d))).head? with
  | none => acc
  | some k =>
    acc.map (fun r =>
      if r.doc_id == some d && !(r.sej_id == k.sej_id) then
        { r with del_sorval := none }
      else r)

/-- The documents provisionally claimed by more than one stay (doc_counts with
count above one, over rows whose doc_id is not null). -/
def multiDocs (best : List BestRow) : List String :=
  (dedupFirst (best.filterMap BestRow.doc_id)).filter
    (fun d => 1 < (best.filter (fun r => r.doc_id == some d)).length)

/-- The multi-stay document loop of merge_sejours_documents. -/
def conflictResolve (best : List BestRow) : List BestRow :=
  (multiDocs best).foldl (fun acc d => resolveDoc d acc) best

/-! ## The full merge (merge_sejours_documents) -/

/-- The left merge of the stay table with the document table on patient
identity: every stay row is kept; a stay whose patient has no document gets
one row with all document columns missing. -/
def joinRows (f : Flags) (matOpt : Option (List MatriceRow))
    (sejours : List Sejour) (documents : List Document) : List Row :=
  sejours.flatMap (fun s =>
    match documents.filter (fun d => d.pat_ipp == s.pat_ipp) with
    | [] => [mkRow f matOpt s none]
    | ds => ds.map (fun d => mkRow f matOpt s (some d)))

/-- An output row for a stay that reaches the final concat step without any
merged row (all document-side columns missing). -/
def emptyBestRow (s : Sejour) : BestRow :=
  { sej_id := s.sej_id, sej_uf := s.sej_uf, doc_id := none, doc_val := none,
    doc_key_norm := none, del_sorval := none, sej_spe := none, doc_spe := none,
    date_diffusion := none }

/-- Embedding of merge_sejours_documents: join, per-stay multi-criteria sort
and groupby-first selection, conflict resolution for documents claimed by
several stays, then re-addition of any stay id absent from the selection. -/
def merge_sejours_documents (f : Flags) (matOpt : Option (List MatriceRow))
    (sejours : List Sejour) (documents : List Document) : List BestRow :=
  let rows := joinRows f matOpt sejours documents
  let ids := dedupFirst (sejours.map Sejour.sej_id)
  let best := ids.map (fun i =>
    groupFirst i (sortLe le2 (rows.filter (fun r => r.sej.sej_id == i))))
  let resolved := conflictResolve best
  let sans := sejours.filter
    (fun s => !((resolved.map BestRow.sej_id).contains s.sej_id))
  resolved ++ sans.map emptyBestRow

/-! ## Delay and Classifier (classify_sejours_iql) -/

/-- Value domain of the raw-delay cell as the classifier lambda sees it: a
missing value, an infinite float, or a finite whole-day count. The pipeline
never produces an infinity, but the source tests np.isinf, so the case is
represented. -/
inductive PVal where
  | nan : PVal
  | inf : PVal
  | num : Int → PVal
deriving DecidableEq

/-- Injection of the pipeline raw delay into the classifier value domain. -/
def toPVal : Option Int → PVal
  | none => PVal.nan
  | some z => PVal.num z

/-- The del_val lambda of classify_sejours_iql: max(0, raw delay) when the raw
delay is present, not infinite, and the specialty is present; missing
otherwise. -/
def del_val_fn (d : PVal) (spe : Option String) : Option Int :=
  match d, spe with
  | PVal.num z, some _ => some (max 0 z)
  | _, _ => none

/-- The classification assignment of classify_sejours_iql: default sansLL,
then the two loc updates on rows whose del_val is present. -/
def classe_fn (dv : Option Int) : String :=
  match dv with
  | none => "sansLL"
  | some k => if k == 0 then "0j" else if 0 < k then "1j+" else "sansLL"

/-- One classified output row. -/
structure CRow where
  b : BestRow
  sej_spe_final : Option String
  del_val : Option Int
  sej_classe : String
deriving DecidableEq

/-- The main classification path: a specialty source per row, then del_val and
the class columns. -/
def classifyMain (speOf : BestRow → Option String) (df : List BestRow) : List CRow :=
  df.map (fun r =>
    let spe := speOf r
    let dv := del_val_fn (toPVal r.del_sorval) spe
    { b := r, sej_spe_final := spe, del_val := dv, sej_classe := classe_fn dv })

/-- Embedding of classify_sejours_iql. When the merged frame already carries
at least one resolved specialty, that column is final. Otherwise the matrice
is loaded again: on failure (None) the source falls back to the doc_spe column
as the final specialty, forces every class to sansLL and returns early; on
success it redoes the matrice join and proceeds. -/
def classify_sejours_iql (matOpt : Option (List MatriceRow))
    (df : List BestRow) : List CRow :=
  if df.any (fun r => r.sej_spe.isSome) then
    classifyMain BestRow.sej_spe df
  else
    match matOpt with
    | none =>
      df.map (fun r =>
        { b := r, sej_spe_final := r.doc_spe, del_val := none,
          sej_classe := "sansLL" })
    | some mat =>
      classifyMain (fun r => lookupSpe mat r.sej_uf r.doc_key_norm) df

/-! ## Aggregator (calculate_validation_stats, calculate_diffusion_stats) -/

/-- Float-valued statistic: NaN, infinity, or an exact rational. -/
inductive PFloat where
  | nan : PFloat
  | inf : PFloat
  | q : Rat → PFloat
deriving DecidableEq

/-- The pandas Series.mean of a numerator over a count: NaN when the count is
zero, never an exception. -/
def meanP (num : Int) (den : Nat) : PFloat :=
  if den == 0 then PFloat.nan else PFloat.q (mkRat num den)

/-- The numpy scalar division: NaN for zero over zero, infinity for a positive
numerator over zero (a warning, not an exception, in the source). -/
def npDiv (num : Int) (den : Nat) : PFloat :=
  if den == 0 then (if num == 0 then PFloat.nan else PFloat.inf)
  else PFloat.q (mkRat num den)

/-- Mean of a list of integers with the NaN result replaced by zero, the
guarded pattern float(x) if not pd.isna(x) else 0.0 of the source. -/
def meanGuard0 (l : List Int) : Rat :=
  if l.length == 0 then 0 else mkRat l.sum l.length

/-- Validation statistics of one group of classified rows (the global block
and the per-specialty block of calculate_validation_stats share this shape). -/
structure ValStats where
  total_sejours : Nat
  nb_ll_validees : Nat
  pct_ll_validees : PFloat
  taux_j0 : PFloat
  delai_moyen : Rat
deriving DecidableEq

/-- The statistics block of calculate_validation_stats over a list of rows. -/
def valStatsOf (df : List CRow) : ValStats :=
  { total_sejours := df.length
    nb_ll_validees := (df.filter (fun r => r.b.doc_val.isSome)).length
    pct_ll_validees :=
      meanP (((df.filter (fun r => r.b.doc_val.isSome)).length * 100 : Nat)) df.length
    taux_j0 :=
      meanP (((df.filter (fun r => r.sej_classe == "0j")).length * 100 : Nat)) df.length
    delai_moyen := meanGuard0 (df.filterMap (fun r => r.b.del_sorval)) }

/-- The distinct final specialties, in first-seen order, as produced by the
pandas unique call on the column with nulls dropped. -/
def uniqueSpes (df : List CRow) : List String :=
  dedupFirst (df.filterMap CRow.sej_spe_final)

/-- Embedding of calculate_validation_stats: classify, then the global block
and one block per specialty (each specialty group is nonempty by
construction). -/
def calculate_validation_stats (matOpt : Option (List MatriceRow))
    (df0 : List BestRow) : ValStats × List (String × ValStats) :=
  let df := classify_sejours_iql matOpt df0
  (valStatsOf df,
   (uniqueSpes df).map (fun spe =>
     (spe, valStatsOf (df.filter (fun r => r.sej_spe_final == some spe)))))

/-- Diffusion statistics of one group of classified rows. -/
structure DiffStats where
  nb_ll_diffusees : Nat
  pct_diffusees_sur_validees : Rat
  pct_diffusees_sur_sejours : PFloat
  taux_diffusion_j0 : PFloat
  delai_diffusion : Rat
deriving DecidableEq

/-- Day difference between diffusion and validation of one row; missing when
either date is missing (NaT propagates). -/
def diffDelay (r : CRow) : Option Int :=
  match r.b.date_diffusion, r.b.doc_val with
  | some a, some b => some (a - b)
  | _, _ => none

/-- The statistics block of calculate_diffusion_stats over a list of rows.
The percentage over validated rows is guarded by the source (0.0 when no row
is validated); the percentage over stays is a bare numpy division. -/
def diffStatsOf (df : List CRow) : DiffStats :=
  let nbVal := (df.filter (fun r => r.b.doc_val.isSome)).length
  let nbDiff := (df.filter (fun r => r.b.date_diffusion.isSome)).length
  { nb_ll_diffusees := nbDiff
    pct_diffusees_sur_validees :=
      if 0 < nbVal then mkRat ((nbDiff * 100 : Nat)) nbVal else 0
    pct_diffusees_sur_sejours := npDiv ((nbDiff * 100 : Nat)) df.length
    taux_diffusion_j0 :=
      meanP (((df.filter (fun r => diffDelay r == some 0)).length * 100 : Nat)) df.length
    delai_diffusion := meanGuard0 (df.filterMap diffDelay) }

/-- Embedding of calculate_diffusion_stats: classify, then the global block
and one block per specialty. -/
def calculate_diffusion_stats (matOpt : Option (List MatriceRow))
    (df0 : List BestRow) : DiffStats × List (String × DiffStats) :=
  let df := classify_sejours_iql matOpt df0
  (diffStatsOf df,
   (uniqueSpes df).map (fun spe =>
     (spe, diffStatsOf (df.filter (fun r => r.sej_spe_final == some spe)))))

/-! ## Concrete fixtures used by witnesses and counterexamples -/

/-- A fully populated column-presence record. -/
def wFlags : Flags :=
  { hasVenueCol := true, hasCreamereCol := true, hasModmereCol := true }

/-- A concrete stay. -/
def wSej : Sejour :=
  { pat_ipp := "P1", sej_id := "S1", sej_ent := 100, sej_sor := 110,
    sej_uf := "UF1" }

/-- A second concrete stay of the same patient, discharged one day later. -/
def wSej2 : Sejour :=
  { pat_ipp := "P1", sej_id := "S2", sej_ent := 100, sej_sor := 111,
    sej_uf := "UF1" }

/-- A concrete validated document of the same patient. -/
def wDoc : Document :=
  { doc_id := "D1", pat_ipp := "P1", doc_libelle := some "lettre",
    doc_cre := some 105, doc_val := some 110, doc_venue := some "S1",
    doc_creamere := none, doc_modmere := none, date_diffusion := some 110,
    doc_spe := some "CARDIO" }

/-- A concrete one-row specialty mapping matching the fixture stay and
document. -/
def wMat : List MatriceRow :=
  [{ sej_uf := "UF1", doc_key_norm := some "LETTRE",
     sej_spe := some "CARDIOLOGIE" }]

/-- The selected output row of the degraded fixture run. -/
def wBestRowDeg : BestRow :=
  { sej_id := "S1", sej_uf := "UF1", doc_id := some "D1", doc_val := some 110,
    doc_key_norm := some "LETTRE", del_sorval := some 0, sej_spe := none,
    doc_spe := some "CARDIO", date_diffusion := some 110 }

/-- The classified output row of the degraded fixture run. -/
def wCRowDeg : CRow :=
  { b := wBestRowDeg, sej_spe_final := some "CARDIO", del_val := none,
    sej_classe := "sansLL" }

/-- A concrete merged frame with a resolved specialty, for the aggregator
witness. -/
def wStatsDf : List BestRow :=
  merge_sejours_documents wFlags (some wMat) [wSej] [wDoc]

/-- The first per-specialty validation block of the fixture run. -/
def wStatsPair : String × ValStats :=
  ((calculate_validation_stats (some wMat) wStatsDf).2.headD ("", valStatsOf []))

/-- A second concrete document of the same patient: no venue match, no mapped
specialty, validated late. -/
def wDocB : Document :=
  { doc_id := "D2", pat_ipp := "P1", doc_libelle := some "autre",
    doc_cre := some 90, doc_val := some 200, doc_venue := none,
    doc_creamere := none, doc_modmere := none, date_diffusion := none,
    doc_spe := none }

/-- The stay that keeps a contested document: the stay id of the first row of
the claimant group sorted by raw delay ascending with missing values last. -/
def keeperSej (best : List BestRow) (d : String) : Option String :=
  ((sortLe leDel (best.filter (fun r => r.doc_id == some d))).head?).map
    BestRow.sej_id

/-- Pointwise effect of the conflict loop once the processed documents are S:
a claimant row of a processed document loses its raw delay unless it is the
keeper of that document. -/
def nullIf (best : List BestRow) (S : List String) (r : BestRow) : BestRow :=
  match r.doc_id with
  | some d =>
    if d ∈ S ∧ keeperSej best d ≠ some r.sej_id then
      { r with del_sorval := none }
    else r
  | none => r

/-- A selected row claiming the fixture document with delay zero. -/
def wB1 : BestRow :=
  { sej_id := "S1", sej_uf := "UF1", doc_id := some "D1", doc_val := some 110,
    doc_key_norm := some "LETTRE", del_sorval := some 0,
    sej_spe := some "CARDIOLOGIE", doc_spe := some "CARDIO",
    date_diffusion := none }

/-- A second selected row claiming the same document with delay minus one. -/
def wB2 : BestRow :=
  { sej_id := "S2", sej_uf := "UF1", doc_id := some "D1", doc_val := some 110,
    doc_key_norm := some "LETTRE", del_sorval := some (-1),
    sej_spe := some "CARDIOLOGIE", doc_spe := some "CARDIO",
    date_diffusion := none }

/-! ## Claim theorems -/

/-- C8: the Key Normalizer (create_doc_key chained with normalize_text) is a
deterministic total function: an empty or absent label yields the empty
string and the chain never yields a missing value; any other label yields the
uppercase, accent-stripped, whitespace-trimmed form of the label with the
fixed boilerplate substrings removed, in exactly the order the source applies
those operations (lowercase, strip, pattern removal, strip, uppercase, strip,
accent strip). -/
theorem C8_key_normalizer :
    doc_key_norm_of none = some "" ∧
    doc_key_norm_of (some "") = some "" ∧
    (∀ l : Option String, (doc_key_norm_of l).isSome = true) ∧
    (∀ s : String, doc_key_norm_of (some s) =
      some (String.mk (nfdStripList (stripList (List.map pyUpperChar
        (create_doc_key (some s)).toList))))) ∧
    (∀ s : String, create_doc_key (some s) =
      String.mk (stripList (patterns_to_remove.foldl
        (fun acc p => removePat p.toList acc)
        (stripList (List.map pyLowerChar s.toList))))) := by
  refine ⟨by decide, by decide, ?_, ?_, ?_⟩
  · intro l
    cases l <;> rfl
  · intro s
    simp only [doc_key_norm_of, normalize_text]
  · intro s
    simp only [create_doc_key]

/-- The composite arithmetic over three Booleans is exactly their conjunction. -/
theorem sdt_status_fn_eq (a b c : Bool) : sdt_status_fn a b c = (a && b && c) := by
  cases a <;> cases b <;> cases c <;> rfl

/-- C3: the composite eligibility signal sdt_status holds exactly when all
three of validation window, mother-document timing and creation lower bound
hold (the source integer sum exceeding 2 is their conjunction); the raw delay
is the whole-day difference of validation date and discharge date when the
composite signal holds, and every ineligible pair has a missing raw delay. -/
theorem C3_composite_eligibility (f : Flags) (matOpt : Option (List MatriceRow))
    (s : Sejour) (d : Option Document) :
    ((mkRow f matOpt s d).sdt_status =
      ((mkRow f matOpt s d).sdt_docval && (mkRow f matOpt s d).sdt_smere &&
        (mkRow f matOpt s d).sdt_doccre)) ∧
    ((mkRow f matOpt s d).sdt_status = false →
      (mkRow f matOpt s d).del_sorval = none) ∧
    (∀ v : Int, (mkRow f matOpt s d).sdt_status = true →
      (mkRow f matOpt s d).doc_val = some v →
      (mkRow f matOpt s d).del_sorval = some (v - s.sej_sor)) := by
  refine ⟨?_, ?_, ?_⟩
  · simp only [mkRow, sdt_status_fn_eq]
  · intro h
    simp only [mkRow] at h ⊢
    simp [del_sorval_fn, h]
  · intro v hs hv
    simp only [mkRow] at hs hv ⊢
    simp [del_sorval_fn, hs]
    simp [hv]

/-- Witness for C3 at a concrete pair: all three minimal criteria hold and the
raw delay evaluates to the validation-minus-discharge day difference. -/
theorem C3_composite_eligibility_witness :
    (mkRow { hasVenueCol := true, hasCreamereCol := true, hasModmereCol := true }
      none { pat_ipp := "P1", sej_id := "S1", sej_ent := 100, sej_sor := 110,
             sej_uf := "UF1" }
      (some { doc_id := "D1", pat_ipp := "P1", doc_libelle := some "lettre",
              doc_cre := some 105, doc_val := some 112, doc_venue := some "S1",
              doc_creamere := none, doc_modmere := none,
              date_diffusion := none, doc_spe := none })).del_sorval
      = some 2 := by
  have h := C3_composite_eligibility
    { hasVenueCol := true, hasCreamereCol := true, hasModmereCol := true }
    none
    { pat_ipp := "P1", sej_id := "S1", sej_ent := 100, sej_sor := 110,
      sej_uf := "UF1" }
    (some { doc_id := "D1", pat_ipp := "P1", doc_libelle := some "lettre",
            doc_cre := some 105, doc_val := some 112, doc_venue := some "S1",
            doc_creamere := none, doc_modmere := none,
            date_diffusion := none, doc_spe := none })
  have h2 := h.2.2 112 (by decide) (by decide)
  simpa using h2

/-- C7: when an optional document column is absent from the input table, the
matching criterion takes its safe default for every candidate pair instead of
raising: venue match is False without the venue column, and the two
mother-document criteria are True without the mother-document columns. -/
theorem C7_missing_optional_columns (f : Flags) (matOpt : Option (List MatriceRow))
    (s : Sejour) (d : Option Document) :
    (f.hasVenueCol = false → (mkRow f matOpt s d).sdt_docven = false) ∧
    (mereCols f = false →
      (mkRow f matOpt s d).sdt_smere = true ∧
      (mkRow f matOpt s d).sdt_emere = true) := by
  constructor
  · intro h
    simp [mkRow, sdt_docven_fn, h]
  · intro h
    constructor
    · simp [mkRow, sdt_smere_fn, h]
    · simp [mkRow, sdt_emere_fn, h]

/-- Witness for C7: with every optional column absent, a pair whose venue
matches and whose mother dates lie outside every window still gets the
defaults False, True, True. -/
theorem C7_missing_optional_columns_witness :
    (mkRow { hasVenueCol := false, hasCreamereCol := false, hasModmereCol := false }
      none { pat_ipp := "P1", sej_id := "S1", sej_ent := 100, sej_sor := 110,
             sej_uf := "UF1" }
      (some { doc_id := "D1", pat_ipp := "P1", doc_libelle := some "lettre",
              doc_cre := some 105, doc_val := some 112, doc_venue := some "S1",
              doc_creamere := some 500, doc_modmere := some 500,
              date_diffusion := none, doc_spe := none })).sdt_docven = false ∧
    (mkRow { hasVenueCol := false, hasCreamereCol := false, hasModmereCol := false }
      none { pat_ipp := "P1", sej_id := "S1", sej_ent := 100, sej_sor := 110,
             sej_uf := "UF1" }
      (some { doc_id := "D1", pat_ipp := "P1", doc_libelle := some "lettre",
              doc_cre := some 105, doc_val := some 112, doc_venue := some "S1",
              doc_creamere := some 500, doc_modmere := some 500,
              date_diffusion := none, doc_spe := none })).sdt_smere = true := by
  have h := C7_missing_optional_columns
    { hasVenueCol := false, hasCreamereCol := false, hasModmereCol := false }
    none
    { pat_ipp := "P1", sej_id := "S1", sej_ent := 100, sej_sor := 110,
      sej_uf := "UF1" }
    (some { doc_id := "D1", pat_ipp := "P1", doc_libelle := some "lettre",
            doc_cre := some 105, doc_val := some 112, doc_venue := some "S1",
            doc_creamere := some 500, doc_modmere := some 500,
            date_diffusion := none, doc_spe := none })
  exact ⟨h.1 (by decide), (h.2 (by decide)).1⟩

/-- C10: when the mother-document creation date of a candidate pair is absent,
both mother-document criteria sdt_smere and sdt_emere are True regardless of
the mother-document modification date, even one after discharge or before
admission minus 5 days. -/
theorem C10_missing_mother_creation (f : Flags) (matOpt : Option (List MatriceRow))
    (s : Sejour) (doc : Document) (hm : mereCols f = true)
    (hc : doc.doc_creamere = none) :
    (mkRow f matOpt s (some doc)).sdt_smere = true ∧
    (mkRow f matOpt s (some doc)).sdt_emere = true := by
  constructor
  · simp [mkRow, sdt_smere_fn, hm, hc]
  · simp [mkRow, sdt_emere_fn, hm, hc]

/-- Witness for C10: a pair whose mother modification date lies far after
discharge and whose mother creation date is absent passes both mother
criteria. -/
theorem C10_missing_mother_creation_witness :
    (mkRow { hasVenueCol := true, hasCreamereCol := true, hasModmereCol := true }
      none { pat_ipp := "P1", sej_id := "S1", sej_ent := 100, sej_sor := 110,
             sej_uf := "UF1" }
      (some { doc_id := "D1", pat_ipp := "P1", doc_libelle := some "lettre",
              doc_cre := some 105, doc_val := some 112, doc_venue := some "S1",
              doc_creamere := none, doc_modmere := some 9999,
              date_diffusion := none, doc_spe := none })).sdt_smere = true := by
  exact (C10_missing_mother_creation
    { hasVenueCol := true, hasCreamereCol := true, hasModmereCol := true }
    none
    { pat_ipp := "P1", sej_id := "S1", sej_ent := 100, sej_sor := 110,
      sej_uf := "UF1" }
    { doc_id := "D1", pat_ipp := "P1", doc_libelle := some "lettre",
      doc_cre := some 105, doc_val := some 112, doc_venue := some "S1",
      doc_creamere := none, doc_modmere := some 9999,
      date_diffusion := none, doc_spe := none }
    (by decide) (by decide)).1

/-- C2: the final delay equals max(0, raw delay) exactly when the raw delay is
present, finite and the specialty resolved, and is missing otherwise; the
class is sansLL exactly when the final delay is missing, 0j exactly when it
equals zero, 1j+ exactly when it is positive; the final delay is never
negative and every classified row of the pipeline falls in exactly one of the
three states. -/
theorem C2_delay_classification :
    (∀ (d : PVal) (spe : Option String),
      (∀ z : Int, d = PVal.num z → spe.isSome = true →
        del_val_fn d spe = some (max 0 z)) ∧
      (d = PVal.nan ∨ d = PVal.inf ∨ spe = none → del_val_fn d spe = none) ∧
      (classe_fn (del_val_fn d spe) = "sansLL" ↔ del_val_fn d spe = none) ∧
      (classe_fn (del_val_fn d spe) = "0j" ↔ del_val_fn d spe = some 0) ∧
      (classe_fn (del_val_fn d spe) = "1j+" ↔
        ∃ k : Int, del_val_fn d spe = some k ∧ 0 < k) ∧
      (∀ k : Int, del_val_fn d spe = some k → 0 ≤ k)) ∧
    (∀ (matOpt : Option (List MatriceRow)) (df : List BestRow),
      ∀ r ∈ classify_sejours_iql matOpt df,
        (r.sej_classe = "sansLL" ∨ r.sej_classe = "0j" ∨ r.sej_classe = "1j+") ∧
        (∀ k : Int, r.del_val = some k → 0 ≤ k)) := by
  constructor
  · intro d spe
    refine ⟨?_, ?_, ?_, ?_, ?_, ?_⟩
    · rintro z rfl hspe
      cases spe with
      | none => simp at hspe
      | some x => rfl
    · rintro (rfl | rfl | rfl)
      · rfl
      · rfl
      · cases d <;> rfl
    · cases d with
      | nan => simp [del_val_fn, classe_fn]
      | inf => simp [del_val_fn, classe_fn]
      | num z =>
        cases spe with
        | none => simp [del_val_fn, classe_fn]
        | some x =>
          simp only [del_val_fn, classe_fn]
          constructor
          · intro h
            by_cases h0 : max 0 z = 0
            · simp [h0] at h
            · have hpos : 0 < max 0 z := by omega
              simp [h0, hpos] at h
          · intro h
            simp at h
    · cases d with
      | nan => simp [del_val_fn, classe_fn]
      | inf => simp [del_val_fn, classe_fn]
      | num z =>
        cases spe with
        | none => simp [del_val_fn, classe_fn]
        | some x =>
          simp only [del_val_fn, classe_fn]
          by_cases h0 : max 0 z = 0
          · simp [h0]
          · have hpos : 0 < max 0 z := by omega
            simp [h0, hpos]
    · cases d with
      | nan => simp [del_val_fn, classe_fn]
      | inf => simp [del_val_fn, classe_fn]
      | num z =>
        cases spe with
        | none => simp [del_val_fn, classe_fn]
        | some x =>
          simp only [del_val_fn, classe_fn]
          by_cases h0 : max 0 z = 0
          · simp [h0]
          · have hpos : 0 < max 0 z := by omega
            simp [h0, hpos]
    · intro k hk
      cases d with
      | nan => simp [del_val_fn] at hk
      | inf => simp [del_val_fn] at hk
      | num z =>
        cases spe with
        | none => simp [del_val_fn] at hk
        | some x =>
          simp only [del_val_fn, Option.some_inj] at hk
          omega
  · intro matOpt df r hr
    have hcls : ∀ dv : Option Int, classe_fn dv = "sansLL" ∨ classe_fn dv = "0j" ∨
        classe_fn dv = "1j+" := by
      intro dv
      cases dv with
      | none => left; rfl
      | some k =>
        simp only [classe_fn]
        by_cases h0 : k == 0
        · right; left; simp [h0]
        · by_cases hp : 0 < k
          · right; right; simp [h0, hp]
          · left; simp [h0, hp]
    have hge : ∀ (o : Option Int) (spe : Option String) (k : Int),
        del_val_fn (toPVal o) spe = some k → 0 ≤ k := by
      intro o spe k hk
      cases o with
      | none => simp [toPVal, del_val_fn] at hk
      | some z =>
        cases spe with
        | none => simp [toPVal, del_val_fn] at hk
        | some x =>
          simp only [toPVal, del_val_fn, Option.some_inj] at hk
          omega
    unfold classify_sejours_iql at hr
    by_cases hany : df.any (fun r => r.sej_spe.isSome)
    · simp only [hany, if_true] at hr
      unfold classifyMain at hr
      rcases List.mem_map.mp hr with ⟨b, hb, rfl⟩
      exact ⟨hcls _, hge b.del_sorval b.sej_spe⟩
    · simp only [hany, if_false] at hr
      cases matOpt with
      | none =>
        rcases List.mem_map.mp hr with ⟨b, hb, rfl⟩
        refine ⟨Or.inl rfl, ?_⟩
        intro k hk
        simp at hk
      | some mat =>
        unfold classifyMain at hr
        rcases List.mem_map.mp hr with ⟨b, hb, rfl⟩
        exact ⟨hcls _, hge b.del_sorval _⟩

/-- Witness for C2: a matched pair with raw delay minus two and a resolved
specialty clamps to zero and classifies 0j, and instantiates the partition
on a concrete pipeline output. -/
theorem C2_delay_classification_witness :
    del_val_fn (PVal.num (-2)) (some "CARDIOLOGIE") = some 0 ∧
    classe_fn (del_val_fn (PVal.num (-2)) (some "CARDIOLOGIE")) = "0j" := by
  have h := (C2_delay_classification.1 (PVal.num (-2)) (some "CARDIOLOGIE"))
  have h1 := h.1 (-2) rfl (by decide)
  refine ⟨by simpa using h1, ?_⟩
  have h2 := (h.2.2.2.1).mpr (by simpa using h1)
  exact h2

/-- A list of all-missing options has no first non-missing value. -/
theorem firstSome_eq_none {α : Type} (l : List (Option α))
    (h : ∀ o ∈ l, o = none) : firstSome l = none := by
  induction l with
  | nil => rfl
  | cons a t ih =>
    have ha := h a (List.mem_cons_self _ _)
    subst ha
    exact ih (fun o ho => h o (List.mem_cons_of_mem _ ho))

/-- Every joined candidate row is built by mkRow from one stay and one
optional document of the input. -/
theorem joinRows_shape (f : Flags) (matOpt : Option (List MatriceRow))
    (sejours : List Sejour) (documents : List Document) :
    ∀ r ∈ joinRows f matOpt sejours documents,
      ∃ (s : Sejour) (d : Option Document), s ∈ sejours ∧ r = mkRow f matOpt s d := by
  intro r hr
  unfold joinRows at hr
  rcases List.mem_flatMap.mp hr with ⟨s, hs, hr2⟩
  cases hds : documents.filter (fun d => d.pat_ipp == s.pat_ipp) with
  | nil =>
    rw [hds] at hr2
    simp only [List.mem_singleton] at hr2
    exact ⟨s, none, hs, hr2⟩
  | cons d ds =>
    rw [hds] at hr2
    rcases List.mem_map.mp hr2 with ⟨d2, hd2, rfl⟩
    exact ⟨s, some d2, hs, rfl⟩

/-- With no loadable matrice, every candidate row has a missing specialty. -/
theorem mkRow_spe_none (f : Flags) (s : Sejour) (d : Option Document) :
    (mkRow f none s d).sej_spe = none := rfl

/-- Each row of resolveDoc is a row of its input, possibly with the raw delay
nulled. -/
theorem resolveDoc_shape (d : String) (acc : List BestRow) :
    ∀ r ∈ resolveDoc d acc,
      ∃ r0 ∈ acc, r = r0 ∨ r = { r0 with del_sorval := none } := by
  intro r hr
  unfold resolveDoc at hr
  cases hh : (sortLe leDel (acc.filter (fun r => r.doc_id == some d))).head? with
  | none =>
    rw [hh] at hr
    exact ⟨r, hr, Or.inl rfl⟩
  | some k =>
    rw [hh] at hr
    rcases List.mem_map.mp hr with ⟨r0, hr0, rfl⟩
    refine ⟨r0, hr0, ?_⟩
    by_cases hc : (r0.doc_id == some d && !(r0.sej_id == k.sej_id)) = true
    · right; simp [hc]
    · left; simp [hc]

/-- Each row of the conflict fold is a row of the initial selection, possibly
with the raw delay nulled. -/
theorem foldl_resolve_shape (best : List BestRow) (todo : List String) :
    ∀ acc, (∀ r ∈ acc, ∃ r0 ∈ best, r = r0 ∨ r = { r0 with del_sorval := none }) →
    ∀ r ∈ todo.foldl (fun a d => resolveDoc d a) acc,
      ∃ r0 ∈ best, r = r0 ∨ r = { r0 with del_sorval := none } := by
  induction todo with
  | nil => intro acc hacc r hr; exact hacc r hr
  | cons d t ih =>
    intro acc hacc r hr
    simp only [List.foldl_cons] at hr
    refine ih (resolveDoc d acc) ?_ r hr
    intro r2 hr2
    obtain ⟨r1, hr1, hc⟩ := resolveDoc_shape d acc r2 hr2
    obtain ⟨r0, hr0, hc0⟩ := hacc r1 hr1
    refine ⟨r0, hr0, ?_⟩
    rcases hc with rfl | rfl <;> rcases hc0 with rfl | rfl
    · exact Or.inl rfl
    · exact Or.inr rfl
    · exact Or.inr rfl
    · exact Or.inr rfl

/-- Each row of conflictResolve is a row of its input, possibly with the raw
delay nulled. -/
theorem conflictResolve_shape (best : List BestRow) :
    ∀ r ∈ conflictResolve best,
      ∃ r0 ∈ best, r = r0 ∨ r = { r0 with del_sorval := none } :=
  foldl_resolve_shape best (multiDocs best) best (fun r hr => ⟨r, hr, Or.inl rfl⟩)

/-- With no loadable matrice, every selected output row of the merge carries a
missing specialty. -/
theorem merge_none_spe (f : Flags) (sejours : List Sejour)
    (documents : List Document) :
    ∀ r ∈ merge_sejours_documents f none sejours documents,
      r.sej_spe = none := by
  intro r hr
  unfold merge_sejours_documents at hr
  rcases List.mem_append.mp hr with h | h
  · obtain ⟨r0, hr0, hcase⟩ := conflictResolve_shape _ r h
    have h0 : r0.sej_spe = none := by
      rcases List.mem_map.mp hr0 with ⟨i, hi, rfl⟩
      apply firstSome_eq_none
      intro o ho
      rcases List.mem_map.mp ho with ⟨row, hrow, rfl⟩
      have hmem : row ∈ joinRows f none sejours documents :=
        (List.mem_filter.mp ((mem_sortLe _ _ _).mp hrow)).1
      obtain ⟨s, d, _, rfl⟩ := joinRows_shape f none sejours documents row hmem
      exact mkRow_spe_none f s d
    rcases hcase with rfl | rfl
    · exact h0
    · exact h0
  · rcases List.mem_map.mp h with ⟨s, hs, rfl⟩
    rfl

/-- Amended C6: when the specialty reference mapping cannot be loaded the run
completes and classifies every stay sansLL with a missing final delay, but
instead of resolving no specialty for anyone, the classifier falls back to the
doc_spe column of the selected document as the final specialty, which is not
null for documents that carry one. -/
theorem C6_degraded_reference_amended (f : Flags) (sejours : List Sejour)
    (documents : List Document) :
    ∀ r ∈ classify_sejours_iql none (merge_sejours_documents f none sejours documents),
      r.sej_classe = "sansLL" ∧ r.del_val = none ∧ r.sej_spe_final = r.b.doc_spe := by
  intro r hr
  unfold classify_sejours_iql at hr
  have hany : ((merge_sejours_documents f none sejours documents).any
      (fun r => r.sej_spe.isSome)) = false := by
    apply List.any_eq_false.mpr
    intro x hx
    simp [merge_none_spe f sejours documents x hx]
  simp only [hany, Bool.false_eq_true, if_false] at hr
  rcases List.mem_map.mp hr with ⟨b, hb, rfl⟩
  exact ⟨rfl, rfl, rfl⟩

/-- Witness for the amended C6 at a concrete degraded run: the single output
row is classified sansLL (its final specialty being the document fallback). -/
theorem C6_degraded_reference_amended_witness :
    wCRowDeg ∈ classify_sejours_iql none
      (merge_sejours_documents wFlags none [wSej] [wDoc]) ∧
    wCRowDeg.sej_classe = "sansLL" ∧ wCRowDeg.del_val = none := by
  have hmem : wCRowDeg ∈ classify_sejours_iql none
      (merge_sejours_documents wFlags none [wSej] [wDoc]) := by decide
  have h := C6_degraded_reference_amended wFlags [wSej] [wDoc] wCRowDeg hmem
  exact ⟨hmem, h.1, h.2.1⟩

/-- Counterexample to C6 as stated: with a document that carries a dossier
specialty, the degraded run still resolves a non-null final specialty for the
stay (the doc_spe fallback), while classifying it sansLL; the claim that no
stay receives a resolved specialty is false on this input. -/
theorem C6_degraded_reference_counterexample :
    ((classify_sejours_iql none (merge_sejours_documents wFlags none [wSej] [wDoc])).map
      (fun r => r.sej_spe_final)) = [some "CARDIO"] ∧
    some "CARDIO" ≠ (none : Option String) ∧
    ((classify_sejours_iql none (merge_sejours_documents wFlags none [wSej] [wDoc])).map
      (fun r => r.sej_classe)) = ["sansLL"] := by
  refine ⟨by decide, by decide, by decide⟩

/-- Deduplication only returns values of its input. -/
theorem mem_of_mem_dedupFirstF {α : Type} [BEq α] (n : Nat) :
    ∀ (l : List α) (a : α), a ∈ dedupFirstF n l → a ∈ l := by
  induction n with
  | zero =>
    intro l a h
    cases l with
    | nil => exact h
    | cons b t => exact h
  | succ n ih =>
    intro l a h
    cases l with
    | nil => exact h
    | cons b t =>
      rcases List.mem_cons.mp h with rfl | h2
      · exact List.mem_cons_self _ _
      · exact List.mem_cons_of_mem _ ((List.mem_filter.mp (ih _ a h2)).1)

theorem mem_of_mem_dedupFirst {α : Type} [BEq α] (l : List α) (a : α)
    (h : a ∈ dedupFirst l) : a ∈ l :=
  mem_of_mem_dedupFirstF l.length l a h

/-- An empty classified frame produces the empty-frame validation block. -/
theorem calculate_validation_stats_nil (matOpt : Option (List MatriceRow)) :
    calculate_validation_stats matOpt [] = (valStatsOf [], []) := by
  cases matOpt <;> rfl

/-- An empty classified frame produces the empty-frame diffusion block. -/
theorem calculate_diffusion_stats_nil (matOpt : Option (List MatriceRow)) :
    calculate_diffusion_stats matOpt [] = (diffStatsOf [], []) := by
  cases matOpt <;> rfl

/-- Counterexample to C9 as stated: on the zero-row input the global validated
percentage and the J0 diffusion rate are NaN (a pandas mean over an empty
series), not zero; the claim that empty denominators yield zero rather than an
undefined value is false on this input. -/
theorem C9_empty_denominators_counterexample :
    (calculate_validation_stats (some []) []).1.pct_ll_validees = PFloat.nan ∧
    (calculate_validation_stats (some []) []).1.taux_j0 = PFloat.nan ∧
    (calculate_diffusion_stats (some []) []).1.taux_diffusion_j0 = PFloat.nan ∧
    (calculate_diffusion_stats (some []) []).1.pct_diffusees_sur_sejours = PFloat.nan ∧
    PFloat.nan ≠ PFloat.q 0 := by
  exact ⟨by decide, by decide, by decide, by decide, by decide⟩

/-- Amended C9: the aggregator never raises and the explicitly guarded
statistics (the two mean delays and the diffused-over-validated percentage)
yield zero for an empty denominator; but the mean-based percentages and rates
(validated percentage, J0 rates, diffused-over-stays percentage) evaluate to
NaN on a zero-row input rather than zero; per-specialty groups are nonempty by
construction, so their stay denominator is never zero. -/
theorem C9_empty_denominators_amended (matOpt : Option (List MatriceRow)) :
    (calculate_validation_stats matOpt []).1.pct_ll_validees = PFloat.nan ∧
    (calculate_validation_stats matOpt []).1.taux_j0 = PFloat.nan ∧
    (calculate_validation_stats matOpt []).1.delai_moyen = 0 ∧
    (calculate_diffusion_stats matOpt []).1.pct_diffusees_sur_validees = 0 ∧
    (calculate_diffusion_stats matOpt []).1.pct_diffusees_sur_sejours = PFloat.nan ∧
    (calculate_diffusion_stats matOpt []).1.taux_diffusion_j0 = PFloat.nan ∧
    (calculate_diffusion_stats matOpt []).1.delai_diffusion = 0 ∧
    (∀ (df : List BestRow) (p : String × ValStats),
      p ∈ (calculate_validation_stats matOpt df).2 → 0 < p.2.total_sejours) := by
  refine ⟨?_, ?_, ?_, ?_, ?_, ?_, ?_, ?_⟩
  · rw [calculate_validation_stats_nil]; decide
  · rw [calculate_validation_stats_nil]; decide
  · rw [calculate_validation_stats_nil]; decide
  · rw [calculate_diffusion_stats_nil]; decide
  · rw [calculate_diffusion_stats_nil]; decide
  · rw [calculate_diffusion_stats_nil]; decide
  · rw [calculate_diffusion_stats_nil]; decide
  · intro df p hp
    simp only [calculate_validation_stats] at hp
    rcases List.mem_map.mp hp with ⟨spe, hspe, rfl⟩
    have hs2 : spe ∈ (classify_sejours_iql matOpt df).filterMap CRow.sej_spe_final :=
      mem_of_mem_dedupFirst _ spe hspe
    rcases List.mem_filterMap.mp hs2 with ⟨r, hr, hrs⟩
    have hrf : r ∈ (classify_sejours_iql matOpt df).filter
        (fun r => r.sej_spe_final == some spe) :=
      List.mem_filter.mpr ⟨hr, by simp [hrs]⟩
    have hlen := List.length_pos.mpr (List.ne_nil_of_mem hrf)
    simpa [valStatsOf] using hlen

/-- Witness for the amended C9: on the zero-row run the guarded mean delay is
zero while the validated percentage is NaN, and the per-specialty block of a
concrete nonempty run has a positive stay count. -/
theorem C9_empty_denominators_amended_witness :
    (calculate_validation_stats (some wMat) []).1.pct_ll_validees = PFloat.nan ∧
    (calculate_validation_stats (some wMat) []).1.delai_moyen = 0 ∧
    0 < wStatsPair.2.total_sejours := by
  have h := C9_empty_denominators_amended (some wMat)
  have hp : wStatsPair ∈ (calculate_validation_stats (some wMat) wStatsDf).2 := by
    decide
  exact ⟨h.1, h.2.2.1, h.2.2.2.2.2.2.2 wStatsDf wStatsPair hp⟩

/-- The conflict step for one document never adds, removes or re-keys rows. -/
theorem resolveDoc_map_sej_id (d : String) (acc : List BestRow) :
    (resolveDoc d acc).map BestRow.sej_id = acc.map BestRow.sej_id := by
  unfold resolveDoc
  cases hh : (sortLe leDel (acc.filter (fun r => r.doc_id == some d))).head? with
  | none => rfl
  | some k =>
    rw [List.map_map]
    apply List.map_congr_left
    intro r hr
    simp only [Function.comp]
    split <;> rfl

/-- The conflict fold never adds, removes or re-keys rows. -/
theorem foldl_resolve_map_sej_id (todo : List String) :
    ∀ acc : List BestRow,
      ((todo.foldl (fun a d => resolveDoc d a) acc).map BestRow.sej_id) =
        acc.map BestRow.sej_id := by
  induction todo with
  | nil => intro acc; rfl
  | cons d t ih =>
    intro acc
    simp only [List.foldl_cons]
    rw [ih (resolveDoc d acc), resolveDoc_map_sej_id]

/-- Conflict resolution preserves the stay ids of the selection, in order. -/
theorem conflictResolve_map_sej_id (best : List BestRow) :
    (conflictResolve best).map BestRow.sej_id = best.map BestRow.sej_id :=
  foldl_resolve_map_sej_id (multiDocs best) best

/-- The stay ids of the per-stay selection are exactly the grouped ids. -/
theorem best_map_sej_id (ids : List String) (g : String → List Row) :
    ((ids.map (fun i => groupFirst i (g i))).map BestRow.sej_id) = ids := by
  rw [List.map_map]
  exact List.map_id ids

/-- C1: when the stay ids of the input are pairwise distinct (one row per
hospitalization, the stay id being the identity), the merge output has exactly
one row per input stay. -/
theorem C1_cardinality (f : Flags) (matOpt : Option (List MatriceRow))
    (sejours : List Sejour) (documents : List Document)
    (h : (sejours.map Sejour.sej_id).Nodup) :
    (merge_sejours_documents f matOpt sejours documents).length = sejours.length := by
  unfold merge_sejours_documents
  simp only []
  rw [List.length_append]
  have hres : (conflictResolve ((dedupFirst (sejours.map Sejour.sej_id)).map
      (fun i => groupFirst i (sortLe le2
        ((joinRows f matOpt sejours documents).filter
          (fun r => r.sej.sej_id == i)))))).map BestRow.sej_id =
      dedupFirst (sejours.map Sejour.sej_id) := by
    rw [conflictResolve_map_sej_id, best_map_sej_id]
  have hsans : sejours.filter
      (fun s => !((conflictResolve ((dedupFirst (sejours.map Sejour.sej_id)).map
        (fun i => groupFirst i (sortLe le2
          ((joinRows f matOpt sejours documents).filter
            (fun r => r.sej.sej_id == i)))))).map BestRow.sej_id).contains s.sej_id)
      = [] := by
    apply List.filter_eq_nil_iff.mpr
    intro s hs
    rw [hres]
    simpa using mem_dedupFirst _ _ (List.mem_map_of_mem Sejour.sej_id hs)
  rw [hsans]
  have hlen : (conflictResolve ((dedupFirst (sejours.map Sejour.sej_id)).map
      (fun i => groupFirst i (sortLe le2
        ((joinRows f matOpt sejours documents).filter
          (fun r => r.sej.sej_id == i)))))).length =
      (dedupFirst (sejours.map Sejour.sej_id)).length := by
    have := congrArg List.length hres
    simpa using this
  rw [hlen, dedupFirst_eq_self _ h]
  simp

/-- Witness for C1: a two-stay, one-document run yields exactly two output
rows. -/
theorem C1_cardinality_witness :
    (merge_sejours_documents wFlags (some wMat) [wSej, wSej2] [wDoc]).length = 2 := by
  have h := C1_cardinality wFlags (some wMat) [wSej, wSej2] [wDoc] (by decide)
  simpa using h

theorem le2_trans (a b c : Row) (h1 : le2 a b = true) (h2 : le2 b c = true) :
    le2 a c = true := lex3_trans _ _ _ h1 h2

theorem le2_total (a b : Row) : le2 a b = true ∨ le2 b a = true :=
  lex3_total _ _

/-- C4: inside one stay group the selection sort orders by the final
(pass-two) key order: absence of resolved specialty first, then venue match,
mother freshness, composite eligibility and creation-during-stay all
descending, then raw delay ascending with missing values last; the kept
provisional match is the document of a rank-one row of that order, and the
rank-one survivor of the two sequential spec passes (pass one by specialty
presence and delay, then the full pass) carries the same final key, so the
two descriptions select key-equivalent candidates. -/
theorem C4_ranking_selection (i : String) (group : List Row)
    (hne : group ≠ [])
    (hdocs : ∀ r ∈ group, r.doc.isSome = true) :
    ∃ top : Row, (sortLe le2 group).head? = some top ∧
      (∀ r ∈ group, le2 top r = true) ∧
      (groupFirst i (sortLe le2 group)).doc_id = top.doc.map Document.doc_id ∧
      (∀ top2 : Row, (sortLe le2 (sortLe le1 group)).head? = some top2 →
        key2 top2 = key2 top) := by
  cases hsort : sortLe le2 group with
  | nil =>
    exfalso
    have hlen := (perm_sortLe le2 group).length_eq
    rw [hsort] at hlen
    exact hne (List.eq_nil_of_length_eq_zero hlen.symm)
  | cons top rest =>
    have htopmem : top ∈ group := by
      have : top ∈ sortLe le2 group := by rw [hsort]; exact List.mem_cons_self _ _
      exact (mem_sortLe le2 group top).mp this
    have hmin : ∀ r ∈ group, le2 top r = true :=
      head_sortLe_min le2 le2_trans le2_total group top rest hsort
    refine ⟨top, rfl, hmin, ?_, ?_⟩
    · cases htop : top.doc with
      | none =>
        exfalso
        have := hdocs top htopmem
        rw [htop] at this
        simp at this
      | some doc =>
        simp only [groupFirst, hsort, List.map_cons, htop, Option.map_some']
        rfl
    · intro top2 h2
      cases hsort2 : sortLe le2 (sortLe le1 group) with
      | nil => rw [hsort2] at h2; cases h2
      | cons x xs =>
        rw [hsort2] at h2
        have hx : x = top2 := by
          simpa using h2
        subst hx
        have hmem2 : x ∈ group := by
          have h3 : x ∈ sortLe le2 (sortLe le1 group) := by
            rw [hsort2]; exact List.mem_cons_self _ _
          exact (mem_sortLe le1 group x).mp
            ((mem_sortLe le2 (sortLe le1 group) x).mp h3)
        have hmin2 : ∀ r ∈ sortLe le1 group, le2 x r = true :=
          head_sortLe_min le2 le2_trans le2_total (sortLe le1 group) x xs hsort2
        have h12 : le2 top x = true := hmin x hmem2
        have h21 : le2 x top = true :=
          hmin2 top ((mem_sortLe le1 group top).mpr htopmem)
        exact lex3_antisymm _ _ h21 h12

/-- Witness for C4: in a two-candidate group the candidate with a resolved
specialty and matching venue is selected over the later-validated one. -/
theorem C4_ranking_selection_witness :
    (groupFirst "S1" (sortLe le2 [mkRow wFlags (some wMat) wSej (some wDocB),
      mkRow wFlags (some wMat) wSej (some wDoc)])).doc_id = some "D1" := by
  obtain ⟨top, h1, hmin, hdoc, h2pass⟩ := C4_ranking_selection "S1"
    [mkRow wFlags (some wMat) wSej (some wDocB),
     mkRow wFlags (some wMat) wSej (some wDoc)]
    (by decide) (by decide)
  have hhead : (sortLe le2 [mkRow wFlags (some wMat) wSej (some wDocB),
      mkRow wFlags (some wMat) wSej (some wDoc)]).head? =
      some (mkRow wFlags (some wMat) wSej (some wDoc)) := by decide
  rw [hhead] at h1
  have htop : top = mkRow wFlags (some wMat) wSej (some wDoc) :=
    (Option.some_inj.mp h1).symm
  rw [hdoc, htop]
  decide


/-- Deduplication returns pairwise distinct values (with enough fuel). -/
theorem nodup_dedupFirstF {α : Type} [BEq α] [LawfulBEq α] (n : Nat) :
    ∀ l : List α, l.length ≤ n → (dedupFirstF n l).Nodup := by
  induction n with
  | zero =>
    intro l hlen
    cases l with
    | nil => exact List.nodup_nil
    | cons a t => simp at hlen
  | succ n ih =>
    intro l hlen
    cases l with
    | nil => exact List.nodup_nil
    | cons a t =>
      simp only [List.length_cons] at hlen
      have hfl := List.length_filter_le (fun x => !(x == a)) t
      apply List.nodup_cons.mpr
      constructor
      · intro hmem
        have h2 := mem_of_mem_dedupFirstF n _ a hmem
        have h3 := (List.mem_filter.mp h2).2
        simp at h3
      · exact ih _ (by omega)

/-- Deduplication returns pairwise distinct values. -/
theorem nodup_dedupFirst {α : Type} [BEq α] [LawfulBEq α] (l : List α) :
    (dedupFirst l).Nodup :=
  nodup_dedupFirstF l.length l (Nat.le_refl _)

/-- Two members of a list of at most one element coincide. -/
theorem eq_of_length_le_one {α : Type} (l : List α) (h : l.length ≤ 1)
    (a b : α) (ha : a ∈ l) (hb : b ∈ l) : a = b := by
  cases l with
  | nil => cases ha
  | cons x t =>
    cases t with
    | nil =>
      rcases List.mem_singleton.mp ha with rfl
      rcases List.mem_singleton.mp hb with rfl
      rfl
    | cons y u => simp at h

/-- The conflict nulling never changes the selected document of a row. -/
theorem nullIf_doc_id (best : List BestRow) (S : List String) (r : BestRow) :
    (nullIf best S r).doc_id = r.doc_id := by
  obtain ⟨a1, a2, rdoc, a4, a5, a6, a7, a8, a9⟩ := r
  cases rdoc with
  | none => rfl
  | some d =>
    simp only [nullIf]
    split <;> rfl

/-- The conflict nulling never changes the stay id of a row. -/
theorem nullIf_sej_id (best : List BestRow) (S : List String) (r : BestRow) :
    (nullIf best S r).sej_id = r.sej_id := by
  obtain ⟨a1, a2, rdoc, a4, a5, a6, a7, a8, a9⟩ := r
  cases rdoc with
  | none => rfl
  | some d =>
    simp only [nullIf]
    split <;> rfl

/-- With no processed document the conflict nulling is the identity. -/
theorem nullIf_nil (best : List BestRow) (r : BestRow) :
    nullIf best [] r = r := by
  obtain ⟨a1, a2, rdoc, a4, a5, a6, a7, a8, a9⟩ := r
  cases rdoc with
  | none => rfl
  | some d =>
    simp only [nullIf]
    rw [if_neg]
    intro hc
    simp at hc

/-- The conflict nulling only depends on the processed documents through
membership. -/
theorem nullIf_congr (best : List BestRow) (S1 S2 : List String)
    (h : ∀ x, x ∈ S1 ↔ x ∈ S2) (r : BestRow) :
    nullIf best S1 r = nullIf best S2 r := by
  obtain ⟨a1, a2, rdoc, a4, a5, a6, a7, a8, a9⟩ := r
  cases rdoc with
  | none => rfl
  | some d =>
    simp only [nullIf]
    by_cases hc : d ∈ S1 ∧ keeperSej best d ≠
        some (BestRow.mk a1 a2 (some d) a4 a5 a6 a7 a8 a9).sej_id
    · rw [if_pos hc, if_pos ⟨(h d).mp hc.1, hc.2⟩]
    · rw [if_neg hc, if_neg ?_]
      intro hc2
      exact hc ⟨(h d).mpr hc2.1, hc2.2⟩

/-- A claimant row of an unprocessed document is left unchanged. -/
theorem nullIf_eq_self_of_not_mem (best : List BestRow) (S : List String)
    (r : BestRow) (d : String) (hd : r.doc_id = some d) (hdS : d ∉ S) :
    nullIf best S r = r := by
  obtain ⟨a1, a2, rdoc, a4, a5, a6, a7, a8, a9⟩ := r
  simp only [BestRow.mk.injEq] at hd ⊢
  cases rdoc with
  | none => rfl
  | some d2 =>
    simp only [Option.some_inj] at hd
    subst hd
    simp only [nullIf]
    rw [if_neg]
    intro hc
    exact hdS hc.1

/-- Pointwise form of one conflict iteration over the already-processed rows. -/
theorem nullIf_step (best : List BestRow) (S : List String) (d : String)
    (k : BestRow) (r : BestRow) (hdS : d ∉ S)
    (hkeep : keeperSej best d = some k.sej_id) :
    (if (nullIf best S r).doc_id == some d &&
        !((nullIf best S r).sej_id == k.sej_id) then
      { nullIf best S r with del_sorval := none }
    else nullIf best S r) = nullIf best (S ++ [d]) r := by
  obtain ⟨a1, a2, rdoc, a4, a5, a6, a7, a8, a9⟩ := r
  cases rdoc with
  | none =>
    have hid : nullIf best S (BestRow.mk a1 a2 none a4 a5 a6 a7 a8 a9) =
        BestRow.mk a1 a2 none a4 a5 a6 a7 a8 a9 := rfl
    rw [hid]
    have hid2 : nullIf best (S ++ [d]) (BestRow.mk a1 a2 none a4 a5 a6 a7 a8 a9) =
        BestRow.mk a1 a2 none a4 a5 a6 a7 a8 a9 := rfl
    rw [hid2]
    simp
  | some d2 =>
    by_cases hd2 : d2 = d
    · subst hd2
      have hid : nullIf best S (BestRow.mk a1 a2 (some d2) a4 a5 a6 a7 a8 a9) =
          BestRow.mk a1 a2 (some d2) a4 a5 a6 a7 a8 a9 :=
        nullIf_eq_self_of_not_mem best S _ d2 rfl hdS
      rw [hid]
      simp only [nullIf]
      by_cases heq : a1 = k.sej_id
      · rw [if_neg, if_neg]
        · intro hc
          apply hc.2
          rw [hkeep, heq]
        · simp [heq]
      · rw [if_pos, if_pos]
        · exact ⟨List.mem_append.mpr (Or.inr (List.mem_singleton_self d2)), by
            rw [hkeep]
            simp only [ne_eq, Option.some_inj]
            intro h
            exact heq h.symm⟩
        · simp [heq]
    · have hdoc : (nullIf best S (BestRow.mk a1 a2 (some d2) a4 a5 a6 a7 a8 a9)).doc_id
          = some d2 := nullIf_doc_id best S _
      rw [if_neg]
      · simp only [nullIf]
        by_cases hc : d2 ∈ S ∧ keeperSej best d2 ≠
            some (BestRow.mk a1 a2 (some d2) a4 a5 a6 a7 a8 a9).sej_id
        · rw [if_pos hc, if_pos ⟨List.mem_append.mpr (Or.inl hc.1), hc.2⟩]
        · rw [if_neg hc, if_neg ?_]
          intro hc2
          rcases List.mem_append.mp hc2.1 with hmem | hmem
          · exact hc ⟨hmem, hc2.2⟩
          · exact hd2 (List.mem_singleton.mp hmem)
      · rw [hdoc]
        simp [hd2]

/-- One conflict iteration over the partially processed frame advances the
processed set by its document. -/
theorem resolveDoc_on_map (best : List BestRow) (S : List String) (d : String)
    (hdS : d ∉ S)
    (hgrp : best.filter (fun r => r.doc_id == some d) ≠ []) :
    resolveDoc d (best.map (nullIf best S)) =
      best.map (nullIf best (S ++ [d])) := by
  have hfil : (best.map (nullIf best S)).filter (fun r => r.doc_id == some d) =
      best.filter (fun r => r.doc_id == some d) := by
    rw [List.filter_map]
    have hpf : ((fun r : BestRow => r.doc_id == some d) ∘ (nullIf best S)) =
        (fun r : BestRow => r.doc_id == some d) := by
      funext r
      simp only [Function.comp_apply, nullIf_doc_id]
    rw [hpf]
    have : ∀ r ∈ best.filter (fun r : BestRow => r.doc_id == some d),
        nullIf best S r = r := by
      intro r hr
      have hd : r.doc_id = some d := by
        have := (List.mem_filter.mp hr).2
        simpa using this
      exact nullIf_eq_self_of_not_mem best S r d hd hdS
    rw [List.map_congr_left this]
    simp
  cases hk : (sortLe leDel (best.filter (fun r => r.doc_id == some d))).head? with
  | none =>
    exfalso
    cases hs : sortLe leDel (best.filter (fun r => r.doc_id == some d)) with
    | nil =>
      have hlen := (perm_sortLe leDel
        (best.filter (fun r => r.doc_id == some d))).length_eq
      rw [hs] at hlen
      exact hgrp (List.eq_nil_of_length_eq_zero hlen.symm)
    | cons x xs => rw [hs] at hk; cases hk
  | some k =>
    have hkeep : keeperSej best d = some k.sej_id := by
      unfold keeperSej
      rw [hk]
      rfl
    simp only [resolveDoc, hfil, hk]
    rw [List.map_map]
    apply List.map_congr_left
    intro r hr
    exact nullIf_step best S d k r hdS hkeep

/-- The conflict fold over distinct unprocessed documents with nonempty
claimant groups is the pointwise nulling of all of them. -/
theorem foldl_resolve_eq_map (best : List BestRow) (todo : List String) :
    ∀ S : List String, todo.Nodup →
      (∀ e ∈ todo, e ∉ S) →
      (∀ e ∈ todo, best.filter (fun r => r.doc_id == some e) ≠ []) →
      (todo.foldl (fun a d => resolveDoc d a) (best.map (nullIf best S))) =
        best.map (nullIf best (S ++ todo)) := by
  induction todo with
  | nil =>
    intro S _ _ _
    simp
  | cons d t ih =>
    intro S hnd hS hgrp
    simp only [List.foldl_cons]
    rw [resolveDoc_on_map best S d (hS d (List.mem_cons_self _ _))
      (hgrp d (List.mem_cons_self _ _))]
    rw [ih (S ++ [d]) (List.nodup_cons.mp hnd).2
      (fun e he => by
        intro hmem
        rcases List.mem_append.mp hmem with h1 | h1
        · exact hS e (List.mem_cons_of_mem _ he) h1
        · exact (List.nodup_cons.mp hnd).1 (List.mem_singleton.mp h1 ▸ he))
      (fun e he => hgrp e (List.mem_cons_of_mem _ he))]
    apply List.map_congr_left
    intro r hr
    apply nullIf_congr
    intro x
    simp only [List.mem_append, List.mem_singleton, List.mem_cons]
    tauto

/-- The conflict loop is the pointwise nulling by the contested documents. -/
theorem conflictResolve_eq_map (best : List BestRow) :
    conflictResolve best = best.map (nullIf best (multiDocs best)) := by
  have hinit : best.map (nullIf best []) = best := by
    rw [List.map_congr_left (fun r _ => nullIf_nil best r)]
    simp
  have hnodup : (multiDocs best).Nodup :=
    (nodup_dedupFirst (best.filterMap BestRow.doc_id)).filter _
  have hgrp : ∀ e ∈ multiDocs best,
      best.filter (fun r => r.doc_id == some e) ≠ [] := by
    intro e he
    have h2 := (List.mem_filter.mp he).2
    simp only [decide_eq_true_eq] at h2
    intro hnil
    rw [hnil] at h2
    simp at h2
  have h := foldl_resolve_eq_map best (multiDocs best) [] hnodup
    (fun e _ => List.not_mem_nil e) hgrp
  rw [hinit] at h
  unfold conflictResolve
  rw [h]
  rfl

theorem leDel_trans (a b c : BestRow) (h1 : leDel a b = true)
    (h2 : leDel b c = true) : leDel a c = true := lex3_trans _ _ _ h1 h2

theorem leDel_total (a b : BestRow) : leDel a b = true ∨ leDel b a = true :=
  lex3_total _ _

/-- Explicit form of the conflict nulling on a claimant row. -/
theorem nullIf_spec (best : List BestRow) (S : List String) (r : BestRow)
    (d : String) (hd : r.doc_id = some d) :
    nullIf best S r =
      if d ∈ S ∧ keeperSej best d ≠ some r.sej_id then
        { r with del_sorval := none }
      else r := by
  obtain ⟨a1, a2, rdoc, a4, a5, a6, a7, a8, a9⟩ := r
  simp only at hd
  subst hd
  rfl

/-- A document outside the contested list has at most one claimant row. -/
theorem claimants_le_one_of_not_multi (best : List BestRow) (d : String)
    (hM : d ∉ multiDocs best) (r : BestRow) (hr : r ∈ best)
    (hd : r.doc_id = some d) :
    (best.filter (fun r => r.doc_id == some d)).length ≤ 1 := by
  by_contra hlen
  apply hM
  unfold multiDocs
  apply List.mem_filter.mpr
  constructor
  · apply mem_dedupFirst
    exact List.mem_filterMap.mpr ⟨r, hr, hd⟩
  · simp only [decide_eq_true_eq]
    omega

/-- A nonempty claimant group has a keeper: the head of the group sorted by
raw delay, which is a minimum of that order. -/
theorem keeper_head (best : List BestRow) (d : String)
    (hne : best.filter (fun r => r.doc_id == some d) ≠ []) :
    ∃ k : BestRow, keeperSej best d = some k.sej_id ∧
      k ∈ best.filter (fun r => r.doc_id == some d) ∧
      ∀ y ∈ best.filter (fun r => r.doc_id == some d), leDel k y = true := by
  cases hs : sortLe leDel (best.filter (fun r => r.doc_id == some d)) with
  | nil =>
    exfalso
    have hlen := (perm_sortLe leDel
      (best.filter (fun r => r.doc_id == some d))).length_eq
    rw [hs] at hlen
    exact hne (List.eq_nil_of_length_eq_zero hlen.symm)
  | cons k ks =>
    refine ⟨k, ?_, ?_, ?_⟩
    · unfold keeperSej
      rw [hs]
      rfl
    · have : k ∈ sortLe leDel (best.filter (fun r => r.doc_id == some d)) := by
        rw [hs]; exact List.mem_cons_self _ _
      exact (mem_sortLe _ _ _).mp this
    · exact head_sortLe_min leDel leDel_trans leDel_total _ k ks hs

/-- C5: after conflict resolution no row is removed or re-keyed, for every
document at most one output row still holds a raw delay, and any surviving raw
delay belongs to a claimant whose delay is smallest among all claimants of
that document in the pre-resolution selection. -/
theorem C5_document_exclusivity (best : List BestRow)
    (hids : (best.map BestRow.sej_id).Nodup) :
    ((conflictResolve best).map BestRow.sej_id = best.map BestRow.sej_id) ∧
    (∀ d : String,
      ((conflictResolve best).filter
        (fun r => r.doc_id == some d && r.del_sorval.isSome)).length ≤ 1) ∧
    (∀ d : String, ∀ r ∈ conflictResolve best, r.doc_id = some d →
      ∀ v : Int, r.del_sorval = some v →
      ∀ r2 ∈ best, r2.doc_id = some d →
      ∀ w : Int, r2.del_sorval = some w → v ≤ w) := by
  refine ⟨conflictResolve_map_sej_id best, ?_, ?_⟩
  · intro d
    rw [conflictResolve_eq_map, List.filter_map, List.length_map]
    by_cases hM : d ∈ multiDocs best
    · have hne : best.filter (fun r => r.doc_id == some d) ≠ [] := by
        have h2 := (List.mem_filter.mp hM).2
        simp only [decide_eq_true_eq] at h2
        intro hnil
        rw [hnil] at h2
        simp at h2
      obtain ⟨k, hkeep, hkmem, hkmin⟩ := keeper_head best d hne
      have hmono : ∀ r ∈ best,
          ((fun r => r.doc_id == some d && r.del_sorval.isSome) ∘
            (nullIf best (multiDocs best))) r = true →
          (r.sej_id == k.sej_id) = true := by
        intro r hr hq
        simp only [Function.comp_apply, Bool.and_eq_true, beq_iff_eq,
          Option.isSome_iff_exists] at hq
        obtain ⟨hqd, v, hqv⟩ := hq
        rw [nullIf_doc_id] at hqd
        rw [nullIf_spec best _ r d hqd] at hqv
        by_cases hc : d ∈ multiDocs best ∧ keeperSej best d ≠ some r.sej_id
        · rw [if_pos hc] at hqv
          simp at hqv
        · rw [if_neg hc] at hqv
          have hk2 : keeperSej best d = some r.sej_id := by
            by_contra hk3
            exact hc ⟨hM, hk3⟩
          rw [hkeep] at hk2
          simp only [Option.some_inj] at hk2
          simp [hk2]
      calc ((best.filter ((fun r => r.doc_id == some d && r.del_sorval.isSome) ∘
              (nullIf best (multiDocs best))))).length
          = List.countP ((fun r => r.doc_id == some d && r.del_sorval.isSome) ∘
              (nullIf best (multiDocs best))) best :=
            (List.countP_eq_length_filter _ _).symm
        _ ≤ List.countP (fun r => r.sej_id == k.sej_id) best := by
            apply List.countP_mono_left
            intro r hr hq
            exact hmono r hr hq
        _ = List.countP (fun x => x == k.sej_id) (best.map BestRow.sej_id) := by
            rw [List.countP_map]
            rfl
        _ = List.count k.sej_id (best.map BestRow.sej_id) := rfl
        _ ≤ 1 := List.nodup_iff_count_le_one.mp hids k.sej_id
    · have hone : (best.filter (fun r => r.doc_id == some d)).length ≤ 1 := by
        by_cases hex : best.filter (fun r => r.doc_id == some d) = []
        · rw [hex]
          simp
        · obtain ⟨r1, hr1⟩ := List.exists_mem_of_ne_nil _ hex
          have hr1b := (List.mem_filter.mp hr1).1
          have hr1d : r1.doc_id = some d := by
            have := (List.mem_filter.mp hr1).2
            simpa using this
          exact claimants_le_one_of_not_multi best d hM r1 hr1b hr1d
      calc ((best.filter ((fun r => r.doc_id == some d && r.del_sorval.isSome) ∘
              (nullIf best (multiDocs best))))).length
          = List.countP ((fun r => r.doc_id == some d && r.del_sorval.isSome) ∘
              (nullIf best (multiDocs best))) best :=
            (List.countP_eq_length_filter _ _).symm
        _ ≤ List.countP (fun r => r.doc_id == some d) best := by
            apply List.countP_mono_left
            intro r hr hq
            simp only [Function.comp_apply, Bool.and_eq_true] at hq
            rw [nullIf_doc_id] at hq
            exact hq.1
        _ = (best.filter (fun r => r.doc_id == some d)).length :=
            List.countP_eq_length_filter _ _
        _ ≤ 1 := hone
  · intro d r hr hd v hv r2 hr2 hd2 w hw
    rw [conflictResolve_eq_map] at hr
    rcases List.mem_map.mp hr with ⟨r0, hr0, rfl⟩
    have hd0 : r0.doc_id = some d := by rwa [nullIf_doc_id] at hd
    rw [nullIf_spec best _ r0 d hd0] at hv
    by_cases hc : d ∈ multiDocs best ∧ keeperSej best d ≠ some r0.sej_id
    · rw [if_pos hc] at hv
      simp at hv
    · rw [if_neg hc] at hv
      have hgmem : r0 ∈ best.filter (fun r => r.doc_id == some d) :=
        List.mem_filter.mpr ⟨hr0, by simp [hd0]⟩
      have hgmem2 : r2 ∈ best.filter (fun r => r.doc_id == some d) :=
        List.mem_filter.mpr ⟨hr2, by simp [hd2]⟩
      by_cases hM : d ∈ multiDocs best
      · have hkeq : keeperSej best d = some r0.sej_id := by
          by_contra hk3
          exact hc ⟨hM, hk3⟩
        obtain ⟨k, hkeep, hkmem, hkmin⟩ := keeper_head best d
          (List.ne_nil_of_mem hgmem)
        rw [hkeep] at hkeq
        simp only [Option.some_inj] at hkeq
        have hkbest : k ∈ best := (List.mem_filter.mp hkmem).1
        have hk0 : k = r0 :=
          List.inj_on_of_nodup_map hids hkbest hr0 hkeq
        have hle := hkmin r2 hgmem2
        rw [hk0] at hle
        unfold leDel lex3 at hle
        rw [hv, hw] at hle
        simp only [dNa, dV, Option.isSome_some, if_true, Option.getD_some] at hle
        simpa using hle
      · have hone := claimants_le_one_of_not_multi best d hM r0 hr0 hd0
        have heq := eq_of_length_le_one _ hone r0 r2 hgmem hgmem2
        rw [← heq] at hw
        rw [hv] at hw
        simp only [Option.some_inj] at hw
        omega

/-- Witness for C5: with two concrete stays claiming the same document, at
most one output row keeps a raw delay and both stays remain in the output. -/
theorem C5_document_exclusivity_witness :
    ((conflictResolve [wB1, wB2]).filter
      (fun r => r.doc_id == some "D1" && r.del_sorval.isSome)).length ≤ 1 ∧
    (conflictResolve [wB1, wB2]).map BestRow.sej_id = ["S1", "S2"] := by
  have h := C5_document_exclusivity [wB1, wB2] (by decide)
  refine ⟨h.2.1 "D1", ?_⟩
  rw [h.1]
  decide
